import Mathlib

/-!
Verification of the field/potential core of `Electric_Field.py`.

The program computes, for a list of point charges, the electric field
components `Ex`, `Ey` and the electrostatic potential `V` on a `G × G`
grid sampled uniformly over `[-R, R] × [-R, R]`, by superposition of
per-charge Coulomb contributions with a singularity clamp.

Modelling choices: numpy float arrays become functions `ℕ → ℕ → ℝ`
(entry `(i, j)` of the array), numpy elementwise operations become
pointwise operations on those functions, and the `for charge in charges`
loop becomes a `List.foldl` over the charge list.  Floating-point
numbers are modelled as real numbers; the possibility of producing
`inf`/`NaN` through division by zero is modelled separately by an
`Option`-valued variant in which every division is checked.
-/

namespace ElectricField

/-- One charge record `{'q': q, 'x': x, 'y': y}` as built by the sidebar. -/
structure Charge where
  q : ℝ
  x : ℝ
  y : ℝ

/-- The Coulomb constant `k = 8.99e9` fixed inside the function. -/
noncomputable def k : ℝ := 8.99e9

/-- `np.linspace lo hi n` : the `i`-th of `n` uniformly spaced samples from
`lo` to `hi` (for `n = 1` numpy returns `[lo]`, which the formula also
gives since division by zero is zero). -/
noncomputable def linspace (lo hi : ℝ) (n i : ℕ) : ℝ :=
  lo + (hi - lo) * (i : ℝ) / ((n - 1 : ℕ) : ℝ)

/-- `X` of `X, Y = np.meshgrid(x, y)` : row `i`, column `j` holds `x[j]`. -/
noncomputable def meshX (G : ℕ) (R : ℝ) (_i j : ℕ) : ℝ :=
  linspace (-R) R G j

/-- `Y` of `X, Y = np.meshgrid(x, y)` : row `i`, column `j` holds `y[i]`. -/
noncomputable def meshY (G : ℕ) (R : ℝ) (i _j : ℕ) : ℝ :=
  linspace (-R) R G i

/-- The three accumulator arrays `Ex`, `Ey`, `V` of the loop. -/
structure FieldState where
  Ex : ℕ → ℕ → ℝ
  Ey : ℕ → ℕ → ℝ
  V : ℕ → ℕ → ℝ

/-- The body of `for charge in charges:` (lines 46-67 of the source):
`dx = X - xc`, `dy = Y - yc`, `r2 = dx**2 + dy**2`, `r = np.sqrt(r2)`,
the in-place clamps `r[r < 0.1] = 0.1` and `r2[r2 < 0.01] = 0.01`,
`E_mag = k*q/r2`, and the three accumulations. All array operations are
elementwise, so each is a pointwise operation on index functions. -/
noncomputable def loopBody (X Y : ℕ → ℕ → ℝ) (s : FieldState) (charge : Charge) :
    FieldState :=
  let q := charge.q
  let xc := charge.x
  let yc := charge.y
  let dx : ℕ → ℕ → ℝ := fun i j => X i j - xc
  let dy : ℕ → ℕ → ℝ := fun i j => Y i j - yc
  let r2 : ℕ → ℕ → ℝ := fun i j => dx i j ^ 2 + dy i j ^ 2
  let r : ℕ → ℕ → ℝ := fun i j => Real.sqrt (r2 i j)
  -- r[r < 0.1] = 0.1 ; r2[r2 < 0.01] = 0.01
  let rClamped : ℕ → ℕ → ℝ := fun i j => if r i j < 0.1 then 0.1 else r i j
  let r2Clamped : ℕ → ℕ → ℝ := fun i j => if r2 i j < 0.01 then 0.01 else r2 i j
  let E_mag : ℕ → ℕ → ℝ := fun i j => k * q / r2Clamped i j
  { Ex := fun i j => s.Ex i j + E_mag i j * (dx i j / rClamped i j)
    Ey := fun i j => s.Ey i j + E_mag i j * (dy i j / rClamped i j)
    V := fun i j => s.V i j + k * q / rClamped i j }

/-- `calculate_field_and_potential(charges, grid_size, range_val)`
(lines 36-69): build the mesh, zero-fill `Ex`, `Ey`, `V`, run the loop
over the charges, and return `(X, Y, Ex, Ey, V)`. -/
noncomputable def calculate_field_and_potential (charges : List Charge)
    (grid_size : ℕ) (range_val : ℝ) :
    (ℕ → ℕ → ℝ) × (ℕ → ℕ → ℝ) × (ℕ → ℕ → ℝ) × (ℕ → ℕ → ℝ) × (ℕ → ℕ → ℝ) :=
  let X := meshX grid_size range_val
  let Y := meshY grid_size range_val
  let init : FieldState := ⟨fun _ _ => 0, fun _ _ => 0, fun _ _ => 0⟩
  let final := charges.foldl (loopBody X Y) init
  (X, Y, final.Ex, final.Ey, final.V)

/-- The `X` component of the returned tuple. -/
noncomputable def Xout (charges : List Charge) (G : ℕ) (R : ℝ) : ℕ → ℕ → ℝ :=
  (calculate_field_and_potential charges G R).1

/-- The `Y` component of the returned tuple. -/
noncomputable def Yout (charges : List Charge) (G : ℕ) (R : ℝ) : ℕ → ℕ → ℝ :=
  (calculate_field_and_potential charges G R).2.1

/-- The `Ex` component of the returned tuple. -/
noncomputable def Exout (charges : List Charge) (G : ℕ) (R : ℝ) : ℕ → ℕ → ℝ :=
  (calculate_field_and_potential charges G R).2.2.1

/-- The `Ey` component of the returned tuple. -/
noncomputable def Eyout (charges : List Charge) (G : ℕ) (R : ℝ) : ℕ → ℕ → ℝ :=
  (calculate_field_and_potential charges G R).2.2.2.1

/-- The `V` component of the returned tuple. -/
noncomputable def Vout (charges : List Charge) (G : ℕ) (R : ℝ) : ℕ → ℕ → ℝ :=
  (calculate_field_and_potential charges G R).2.2.2.2

/-- One charge's contribution to `Ex` at the point `(px, py)` — the value
added to `Ex[i,j]` by one loop iteration. -/
noncomputable def exContrib (c : Charge) (px py : ℝ) : ℝ :=
  let dx := px - c.x
  let dy := py - c.y
  let r2 := dx ^ 2 + dy ^ 2
  let r := Real.sqrt r2
  let rClamped := if r < 0.1 then 0.1 else r
  let r2Clamped := if r2 < 0.01 then 0.01 else r2
  (k * c.q / r2Clamped) * (dx / rClamped)

/-- One charge's contribution to `Ey` at the point `(px, py)`. -/
noncomputable def eyContrib (c : Charge) (px py : ℝ) : ℝ :=
  let dx := px - c.x
  let dy := py - c.y
  let r2 := dx ^ 2 + dy ^ 2
  let r := Real.sqrt r2
  let rClamped := if r < 0.1 then 0.1 else r
  let r2Clamped := if r2 < 0.01 then 0.01 else r2
  (k * c.q / r2Clamped) * (dy / rClamped)

/-- One charge's contribution to `V` at the point `(px, py)`. -/
noncomputable def vContrib (c : Charge) (px py : ℝ) : ℝ :=
  let dx := px - c.x
  let dy := py - c.y
  let r2 := dx ^ 2 + dy ^ 2
  let r := Real.sqrt r2
  let rClamped := if r < 0.1 then 0.1 else r
  k * c.q / rClamped

theorem loopBody_Ex (X Y : ℕ → ℕ → ℝ) (s : FieldState) (c : Charge) (i j : ℕ) :
    (loopBody X Y s c).Ex i j = s.Ex i j + exContrib c (X i j) (Y i j) := rfl

theorem loopBody_Ey (X Y : ℕ → ℕ → ℝ) (s : FieldState) (c : Charge) (i j : ℕ) :
    (loopBody X Y s c).Ey i j = s.Ey i j + eyContrib c (X i j) (Y i j) := rfl

theorem loopBody_V (X Y : ℕ → ℕ → ℝ) (s : FieldState) (c : Charge) (i j : ℕ) :
    (loopBody X Y s c).V i j = s.V i j + vContrib c (X i j) (Y i j) := rfl

/-- Unfolding the loop: each entry of the final state is the initial entry
plus the sum of the per-charge contributions at that grid point. -/
theorem foldl_loopBody_eval (X Y : ℕ → ℕ → ℝ) (charges : List Charge)
    (s : FieldState) (i j : ℕ) :
    (charges.foldl (loopBody X Y) s).Ex i j
        = s.Ex i j + (charges.map (fun c => exContrib c (X i j) (Y i j))).sum ∧
    (charges.foldl (loopBody X Y) s).Ey i j
        = s.Ey i j + (charges.map (fun c => eyContrib c (X i j) (Y i j))).sum ∧
    (charges.foldl (loopBody X Y) s).V i j
        = s.V i j + (charges.map (fun c => vContrib c (X i j) (Y i j))).sum := by
  induction charges generalizing s with
  | nil => simp
  | cons c t ih =>
    obtain ⟨hEx, hEy, hV⟩ := ih (loopBody X Y s c)
    refine ⟨?_, ?_, ?_⟩ <;>
      simp [List.foldl_cons, hEx, hEy, hV, loopBody_Ex, loopBody_Ey, loopBody_V] <;>
      ring

/-- The `Ex` entry at `(i, j)` as a sum of per-charge contributions. -/
theorem Exout_eq_sum (charges : List Charge) (G : ℕ) (R : ℝ) (i j : ℕ) :
    Exout charges G R i j
      = (charges.map (fun c =>
          exContrib c (meshX G R i j) (meshY G R i j))).sum := by
  have h := (foldl_loopBody_eval (meshX G R) (meshY G R) charges
    ⟨fun _ _ => 0, fun _ _ => 0, fun _ _ => 0⟩ i j).1
  simpa [Exout, calculate_field_and_potential] using h

/-- The `Ey` entry at `(i, j)` as a sum of per-charge contributions. -/
theorem Eyout_eq_sum (charges : List Charge) (G : ℕ) (R : ℝ) (i j : ℕ) :
    Eyout charges G R i j
      = (charges.map (fun c =>
          eyContrib c (meshX G R i j) (meshY G R i j))).sum := by
  have h := (foldl_loopBody_eval (meshX G R) (meshY G R) charges
    ⟨fun _ _ => 0, fun _ _ => 0, fun _ _ => 0⟩ i j).2.1
  simpa [Eyout, calculate_field_and_potential] using h

/-- The `V` entry at `(i, j)` as a sum of per-charge contributions. -/
theorem Vout_eq_sum (charges : List Charge) (G : ℕ) (R : ℝ) (i j : ℕ) :
    Vout charges G R i j
      = (charges.map (fun c =>
          vContrib c (meshX G R i j) (meshY G R i j))).sum := by
  have h := (foldl_loopBody_eval (meshX G R) (meshY G R) charges
    ⟨fun _ _ => 0, fun _ _ => 0, fun _ _ => 0⟩ i j).2.2
  simpa [Vout, calculate_field_and_potential] using h

/-! ### Spec-side formulation

A second formulation of the evaluator, written from the specification's
wording: each array entry is the sum, over the charges taken
independently, of that charge's contribution, with `r` clamped to a
minimum of `0.1` and `r2` to a minimum of `0.01` (expressed with `max`)
before the contribution is formed. -/

/-- Spec wording: the contribution of one charge to `Ex` at a point,
with the per-charge clamps as "minimum" (`max`). -/
noncomputable def specExContrib (c : Charge) (px py : ℝ) : ℝ :=
  let dx := px - c.x
  let dy := py - c.y
  let r2 := dx ^ 2 + dy ^ 2
  let r := Real.sqrt r2
  (k * c.q / max r2 0.01) * (dx / max r 0.1)

/-- Spec wording: the contribution of one charge to `Ey` at a point. -/
noncomputable def specEyContrib (c : Charge) (px py : ℝ) : ℝ :=
  let dx := px - c.x
  let dy := py - c.y
  let r2 := dx ^ 2 + dy ^ 2
  let r := Real.sqrt r2
  (k * c.q / max r2 0.01) * (dy / max r 0.1)

/-- Spec wording: the contribution of one charge to `V` at a point. -/
noncomputable def specVContrib (c : Charge) (px py : ℝ) : ℝ :=
  let dx := px - c.x
  let dy := py - c.y
  let r2 := dx ^ 2 + dy ^ 2
  let r := Real.sqrt r2
  k * c.q / max r 0.1

/-- Spec wording: `Ex` at a point is the sum of the independently clamped
per-charge contributions. -/
noncomputable def specEx (charges : List Charge) (px py : ℝ) : ℝ :=
  (charges.map (fun c => specExContrib c px py)).sum

/-- Spec wording: `Ey` at a point. -/
noncomputable def specEy (charges : List Charge) (px py : ℝ) : ℝ :=
  (charges.map (fun c => specEyContrib c px py)).sum

/-- Spec wording: `V` at a point. -/
noncomputable def specV (charges : List Charge) (px py : ℝ) : ℝ :=
  (charges.map (fun c => specVContrib c px py)).sum

/-- The in-place clamp `v[v < m] = m` agrees with "clamp to a minimum of
`m`". -/
theorem ite_clamp_eq_max (v m : ℝ) : (if v < m then m else v) = max v m := by
  rcases lt_or_le v m with h | h
  · simp [h, max_eq_right h.le]
  · simp [not_lt.mpr h, max_eq_left h]

theorem exContrib_eq_spec (c : Charge) (px py : ℝ) :
    exContrib c px py = specExContrib c px py := by
  simp [exContrib, specExContrib, ite_clamp_eq_max]

theorem eyContrib_eq_spec (c : Charge) (px py : ℝ) :
    eyContrib c px py = specEyContrib c px py := by
  simp [eyContrib, specEyContrib, ite_clamp_eq_max]

theorem vContrib_eq_spec (c : Charge) (px py : ℝ) :
    vContrib c px py = specVContrib c px py := by
  simp [vContrib, specVContrib, ite_clamp_eq_max]

/-- C1: for every charge list, grid size and range, the function follows
the spec's algorithm: the returned `X` and `Y` form the 2D mesh of `G`
linearly spaced samples over `[-R, R]` in each axis, and every entry of
the returned `Ex`, `Ey`, `V` equals the sum over the charges, taken
independently, of the per-charge contribution `E_mag*(dx/r)`,
`E_mag*(dy/r)`, `k*q/r` with `r` clamped to a minimum of `0.1` and `r2`
to a minimum of `0.01` per charge before accumulation. -/
theorem calculate_matches_spec_algorithm (charges : List Charge)
    (G : ℕ) (R : ℝ) (i j : ℕ) :
    Xout charges G R i j = linspace (-R) R G j ∧
    Yout charges G R i j = linspace (-R) R G i ∧
    Exout charges G R i j
      = specEx charges (Xout charges G R i j) (Yout charges G R i j) ∧
    Eyout charges G R i j
      = specEy charges (Xout charges G R i j) (Yout charges G R i j) ∧
    Vout charges G R i j
      = specV charges (Xout charges G R i j) (Yout charges G R i j) := by
  have hX : Xout charges G R i j = meshX G R i j := rfl
  have hY : Yout charges G R i j = meshY G R i j := rfl
  refine ⟨rfl, rfl, ?_, ?_, ?_⟩
  · rw [hX, hY, Exout_eq_sum, specEx]
    exact congrArg List.sum (List.map_congr_left fun c _ => exContrib_eq_spec ..)
  · rw [hX, hY, Eyout_eq_sum, specEy]
    exact congrArg List.sum (List.map_congr_left fun c _ => eyContrib_eq_spec ..)
  · rw [hX, hY, Vout_eq_sum, specV]
    exact congrArg List.sum (List.map_congr_left fun c _ => vContrib_eq_spec ..)

/-! ### Checked-division model

In IEEE floating point the only way this computation can produce `inf`
or `NaN` is a zero denominator (all other operands stay in safe bounded
ranges).  `safeDiv` makes each division fallible; a `some` result means
every division had a nonzero denominator, hence a finite value. -/

/-- Division that fails (models producing `inf`/`NaN`) on a zero
denominator. -/
noncomputable def safeDiv (a b : ℝ) : Option ℝ :=
  if b = 0 then none else some (a / b)

/-- One loop iteration's contribution at one point with every division
checked: `E_mag = k*q/r2`, `dx/r`, `dy/r`, `k*q/r`. -/
noncomputable def contribChecked (c : Charge) (px py : ℝ) :
    Option (ℝ × ℝ × ℝ) :=
  let dx := px - c.x
  let dy := py - c.y
  let r2 := dx ^ 2 + dy ^ 2
  let r := Real.sqrt r2
  let rClamped := if r < 0.1 then 0.1 else r
  let r2Clamped := if r2 < 0.01 then 0.01 else r2
  match safeDiv (k * c.q) r2Clamped, safeDiv dx rClamped,
      safeDiv dy rClamped, safeDiv (k * c.q) rClamped with
  | some eMag, some dxr, some dyr, some v =>
      some (eMag * dxr, eMag * dyr, v)
  | _, _, _, _ => none

/-- The accumulation loop at one point with checked divisions. -/
noncomputable def accumulateChecked (charges : List Charge) (px py : ℝ) :
    Option (ℝ × ℝ × ℝ) :=
  charges.foldl
    (fun acc c =>
      match acc, contribChecked c px py with
      | some a, some t => some (a.1 + t.1, a.2.1 + t.2.1, a.2.2 + t.2.2)
      | _, _ => none)
    (some (0, 0, 0))

/-- After the clamp, `r` is at least `0.1`, hence nonzero. -/
theorem rClamped_ne_zero (r : ℝ) :
    (if r < (0.1 : ℝ) then (0.1 : ℝ) else r) ≠ 0 := by
  rcases lt_or_le r 0.1 with h | h
  · simp only [if_pos h]; norm_num
  · simp only [if_neg (not_lt.mpr h)]
    intro h0
    rw [h0] at h
    norm_num at h

/-- After the clamp, `r2` is at least `0.01`, hence nonzero. -/
theorem r2Clamped_ne_zero (r2 : ℝ) :
    (if r2 < (0.01 : ℝ) then (0.01 : ℝ) else r2) ≠ 0 := by
  rcases lt_or_le r2 0.01 with h | h
  · simp only [if_pos h]; norm_num
  · simp only [if_neg (not_lt.mpr h)]
    intro h0
    rw [h0] at h
    norm_num at h

/-- Every checked per-charge contribution succeeds and agrees with the
unchecked one. -/
theorem contribChecked_eq_some (c : Charge) (px py : ℝ) :
    contribChecked c px py
      = some (exContrib c px py, eyContrib c px py, vContrib c px py) := by
  have hr : (if Real.sqrt ((px - c.x) ^ 2 + (py - c.y) ^ 2) < (0.1 : ℝ)
      then (0.1 : ℝ) else Real.sqrt ((px - c.x) ^ 2 + (py - c.y) ^ 2)) ≠ 0 :=
    rClamped_ne_zero _
  have hr2 : (if (px - c.x) ^ 2 + (py - c.y) ^ 2 < (0.01 : ℝ)
      then (0.01 : ℝ) else (px - c.x) ^ 2 + (py - c.y) ^ 2) ≠ 0 :=
    r2Clamped_ne_zero _
  simp only [contribChecked, safeDiv, exContrib, eyContrib, vContrib,
    if_neg hr, if_neg hr2]

/-- The checked accumulation succeeds for every charge list and point,
and returns exactly the unchecked sums. -/
theorem accumulateChecked_eq_some (charges : List Charge) (px py : ℝ) :
    accumulateChecked charges px py
      = some ((charges.map (fun c => exContrib c px py)).sum,
              (charges.map (fun c => eyContrib c px py)).sum,
              (charges.map (fun c => vContrib c px py)).sum) := by
  have key : ∀ (l : List Charge) (a b v : ℝ),
      l.foldl
        (fun acc c =>
          match acc, contribChecked c px py with
          | some a, some t => some (a.1 + t.1, a.2.1 + t.2.1, a.2.2 + t.2.2)
          | _, _ => none)
        (some (a, b, v))
      = some (a + (l.map (fun c => exContrib c px py)).sum,
              b + (l.map (fun c => eyContrib c px py)).sum,
              v + (l.map (fun c => vContrib c px py)).sum) := by
    intro l
    induction l with
    | nil => intro a b v; simp
    | cons c t ih =>
      intro a b v
      rw [List.foldl_cons, contribChecked_eq_some]
      rw [show (match some (a, b, v),
            some (exContrib c px py, eyContrib c px py, vContrib c px py) with
          | some a, some t => some (a.1 + t.1, a.2.1 + t.2.1, a.2.2 + t.2.2)
          | _, _ => none)
          = some (a + exContrib c px py, b + eyContrib c px py,
              v + vContrib c px py) from rfl]
      rw [ih]
      simp only [List.map_cons, List.sum_cons]
      refine congrArg some ?_
      refine Prod.ext ?_ (Prod.ext ?_ ?_) <;> simp <;> ring
  have h := key charges 0 0 0
  simpa [accumulateChecked] using h

/-- C2: for every charge list and every grid point — including points
within `0.1` of a charge or exactly on one — the checked computation of
every `Ex`, `Ey`, `V` entry succeeds (no division has a zero
denominator, so no `inf`/`NaN` can arise) and yields exactly the
returned finite real values. -/
theorem field_values_always_finite (charges : List Charge) (G : ℕ) (R : ℝ)
    (i j : ℕ) :
    accumulateChecked charges (Xout charges G R i j) (Yout charges G R i j)
      = some (Exout charges G R i j, Eyout charges G R i j,
              Vout charges G R i j) := by
  rw [accumulateChecked_eq_some]
  have hX : Xout charges G R i j = meshX G R i j := rfl
  have hY : Yout charges G R i j = meshY G R i j := rfl
  rw [hX, hY, Exout_eq_sum, Eyout_eq_sum, Vout_eq_sum]

/-- C3: for a dipole — any `q` at `(x1, y1)` and `-q` at `(x2, y2)` — the
potential computed at a grid point that coincides with the midpoint
`((x1+x2)/2, (y1+y2)/2)` is exactly zero, by symmetry of the scalar
superposition. -/
theorem dipole_midpoint_potential_zero (q x1 y1 x2 y2 R : ℝ) (G i j : ℕ)
    (hx : meshX G R i j = (x1 + x2) / 2) (hy : meshY G R i j = (y1 + y2) / 2) :
    Vout [⟨q, x1, y1⟩, ⟨-q, x2, y2⟩] G R i j = 0 := by
  rw [Vout_eq_sum, hx, hy]
  simp only [List.map_cons, List.map_nil, List.sum_cons, List.sum_nil, add_zero]
  have hr2 : ((x1 + x2) / 2 - (⟨q, x1, y1⟩ : Charge).x) ^ 2
        + ((y1 + y2) / 2 - (⟨q, x1, y1⟩ : Charge).y) ^ 2
      = ((x1 + x2) / 2 - (⟨-q, x2, y2⟩ : Charge).x) ^ 2
        + ((y1 + y2) / 2 - (⟨-q, x2, y2⟩ : Charge).y) ^ 2 := by
    simp only
    ring
  simp only [vContrib, hr2]
  ring

/-- C3 witness: the dipole `q = 1` at `(-2, 0)`, `-1` at `(2, 0)` on the
default `5 × 5` grid over `[-5, 5]`: the grid point `(i, j) = (2, 2)` is
the midpoint `(0, 0)` and the potential there is zero. -/
theorem dipole_midpoint_potential_zero_witness :
    Vout [⟨1, -2, 0⟩, ⟨-1, 2, 0⟩] 5 5 2 2 = 0 := by
  have hx : meshX 5 5 2 2 = ((-2 : ℝ) + 2) / 2 := by
    simp only [meshX, linspace]
    norm_num
  have hy : meshY 5 5 2 2 = ((0 : ℝ) + 0) / 2 := by
    simp only [meshY, linspace]
    norm_num
  have h := dipole_midpoint_potential_zero 1 (-2) 0 2 0 5 5 2 2 hx hy
  simpa using h

/-- C4: permuting the charge list leaves every entry of the returned
`Ex`, `Ey`, `V` arrays unchanged — superposition is order-independent
(in the real-number model the arrays are exactly equal). -/
theorem superposition_perm_invariant (charges1 charges2 : List Charge)
    (G : ℕ) (R : ℝ) (h : charges1.Perm charges2) (i j : ℕ) :
    Exout charges1 G R i j = Exout charges2 G R i j ∧
    Eyout charges1 G R i j = Eyout charges2 G R i j ∧
    Vout charges1 G R i j = Vout charges2 G R i j := by
  refine ⟨?_, ?_, ?_⟩
  · rw [Exout_eq_sum, Exout_eq_sum]
    exact List.Perm.sum_eq (h.map _)
  · rw [Eyout_eq_sum, Eyout_eq_sum]
    exact List.Perm.sum_eq (h.map _)
  · rw [Vout_eq_sum, Vout_eq_sum]
    exact List.Perm.sum_eq (h.map _)

/-- C4 witness: swapping the two charges of the default dipole changes no
array entry, here checked at entry `(0, 0)` of the `3 × 3` grid. -/
theorem superposition_perm_invariant_witness :
    Exout [⟨1, -2, 0⟩, ⟨-1, 2, 0⟩] 3 5 0 0
        = Exout [⟨-1, 2, 0⟩, ⟨1, -2, 0⟩] 3 5 0 0 ∧
    Eyout [⟨1, -2, 0⟩, ⟨-1, 2, 0⟩] 3 5 0 0
        = Eyout [⟨-1, 2, 0⟩, ⟨1, -2, 0⟩] 3 5 0 0 ∧
    Vout [⟨1, -2, 0⟩, ⟨-1, 2, 0⟩] 3 5 0 0
        = Vout [⟨-1, 2, 0⟩, ⟨1, -2, 0⟩] 3 5 0 0 :=
  superposition_perm_invariant [⟨1, -2, 0⟩, ⟨-1, 2, 0⟩]
    [⟨-1, 2, 0⟩, ⟨1, -2, 0⟩] 3 5 (List.Perm.swap _ _ _) 0 0

/-- A charge of magnitude zero contributes zero to all three
accumulators at every point. -/
theorem zero_charge_contrib_eq_zero (x y px py : ℝ) :
    exContrib ⟨0, x, y⟩ px py = 0 ∧ eyContrib ⟨0, x, y⟩ px py = 0 ∧
    vContrib ⟨0, x, y⟩ px py = 0 := by
  refine ⟨?_, ?_, ?_⟩ <;> simp [exContrib, eyContrib, vContrib]

/-- C5: inserting a charge with `q = 0` anywhere in the charge list
leaves every entry of the returned `Ex`, `Ey`, `V` arrays exactly
unchanged. -/
theorem zero_charge_no_contribution (l1 l2 : List Charge) (x y : ℝ)
    (G : ℕ) (R : ℝ) (i j : ℕ) :
    Exout (l1 ++ ⟨0, x, y⟩ :: l2) G R i j = Exout (l1 ++ l2) G R i j ∧
    Eyout (l1 ++ ⟨0, x, y⟩ :: l2) G R i j = Eyout (l1 ++ l2) G R i j ∧
    Vout (l1 ++ ⟨0, x, y⟩ :: l2) G R i j = Vout (l1 ++ l2) G R i j := by
  obtain ⟨hex, hey, hv⟩ :=
    zero_charge_contrib_eq_zero x y (meshX G R i j) (meshY G R i j)
  refine ⟨?_, ?_, ?_⟩
  · rw [Exout_eq_sum, Exout_eq_sum]
    simp [hex]
  · rw [Eyout_eq_sum, Eyout_eq_sum]
    simp [hey]
  · rw [Vout_eq_sum, Vout_eq_sum]
    simp [hv]

/-- Distance of the point `(px, py)` from the origin. -/
noncomputable def distToOrigin (px py : ℝ) : ℝ :=
  Real.sqrt (px ^ 2 + py ^ 2)

/-- For a charge at the origin, the potential contribution at a point at
distance at least `0.1` from the origin is exactly `k*q/dist`. -/
theorem vContrib_origin (q px py : ℝ)
    (h : 0.1 ≤ distToOrigin px py) :
    vContrib ⟨q, 0, 0⟩ px py = k * q / distToOrigin px py := by
  have hd : Real.sqrt ((px - 0) ^ 2 + (py - 0) ^ 2) = distToOrigin px py := by
    rw [distToOrigin, sub_zero, sub_zero]
  rw [vContrib]
  simp only [hd, if_neg (not_lt.mpr h)]

/-- C6: for a single positive charge `q` at the origin, the potential at
any grid point at distance `d1 ≥ 0.1` from the origin equals `k*q/d1`
exactly, and is strictly larger than the potential at any grid point at a
strictly larger distance `d2 ≥ 0.1` — i.e. `V` decreases monotonically
with distance from the origin over the clamped region. -/
theorem single_charge_potential_coulomb_monotone (q R : ℝ) (G i j i2 j2 : ℕ)
    (hq : 0 < q)
    (h1 : 0.1 ≤ distToOrigin (meshX G R i j) (meshY G R i j))
    (h2 : 0.1 ≤ distToOrigin (meshX G R i2 j2) (meshY G R i2 j2))
    (h12 : distToOrigin (meshX G R i j) (meshY G R i j)
        < distToOrigin (meshX G R i2 j2) (meshY G R i2 j2)) :
    Vout [⟨q, 0, 0⟩] G R i j
        = k * q / distToOrigin (meshX G R i j) (meshY G R i j) ∧
    Vout [⟨q, 0, 0⟩] G R i2 j2 < Vout [⟨q, 0, 0⟩] G R i j := by
  have hv1 : Vout [⟨q, 0, 0⟩] G R i j
      = k * q / distToOrigin (meshX G R i j) (meshY G R i j) := by
    rw [Vout_eq_sum]
    simp only [List.map_cons, List.map_nil, List.sum_cons, List.sum_nil,
      add_zero]
    exact vContrib_origin q _ _ h1
  have hv2 : Vout [⟨q, 0, 0⟩] G R i2 j2
      = k * q / distToOrigin (meshX G R i2 j2) (meshY G R i2 j2) := by
    rw [Vout_eq_sum]
    simp only [List.map_cons, List.map_nil, List.sum_cons, List.sum_nil,
      add_zero]
    exact vContrib_origin q _ _ h2
  have hkq : 0 < k * q := by
    have hk : (0 : ℝ) < k := by norm_num [k]
    exact mul_pos hk hq
  have hd1 : 0 < distToOrigin (meshX G R i j) (meshY G R i j) :=
    lt_of_lt_of_le (by norm_num) h1
  refine ⟨hv1, ?_⟩
  rw [hv1, hv2]
  exact div_lt_div_of_pos_left hkq hd1 h12

/-- C6 witness: a unit charge at the origin on the `5 × 5` grid over
`[-5, 5]`; the grid points `(2, 3) = (2.5, 0)` and `(2, 4) = (5, 0)` are
at distances `2.5` and `5`, and the theorem's hypotheses hold there. -/
theorem single_charge_potential_coulomb_monotone_witness :
    Vout [⟨1, 0, 0⟩] 5 5 2 3
        = k * 1 / distToOrigin (meshX 5 5 2 3) (meshY 5 5 2 3) ∧
    Vout [⟨1, 0, 0⟩] 5 5 2 4 < Vout [⟨1, 0, 0⟩] 5 5 2 3 := by
  have hd1 : distToOrigin (meshX 5 5 2 3) (meshY 5 5 2 3) = 2.5 := by
    have hx : meshX 5 5 2 3 = (2.5 : ℝ) := by
      simp only [meshX, linspace]
      norm_num
    have hy : meshY 5 5 2 3 = (0 : ℝ) := by
      simp only [meshY, linspace]
      norm_num
    rw [distToOrigin, hx, hy,
      show (2.5 : ℝ) ^ 2 + 0 ^ 2 = 2.5 ^ 2 by norm_num]
    exact Real.sqrt_sq (by norm_num)
  have hd2 : distToOrigin (meshX 5 5 2 4) (meshY 5 5 2 4) = 5 := by
    have hx : meshX 5 5 2 4 = (5 : ℝ) := by
      simp only [meshX, linspace]
      norm_num
    have hy : meshY 5 5 2 4 = (0 : ℝ) := by
      simp only [meshY, linspace]
      norm_num
    rw [distToOrigin, hx, hy,
      show (5 : ℝ) ^ 2 + 0 ^ 2 = 5 ^ 2 by norm_num]
    exact Real.sqrt_sq (by norm_num)
  exact single_charge_potential_coulomb_monotone 1 5 5 2 3 2 4
    (by norm_num) (by rw [hd1]; norm_num) (by rw [hd2]; norm_num)
    (by rw [hd1, hd2]; norm_num)

/-- C7: the computation is deterministic and pure — two runs on equal
inputs return equal `(X, Y, Ex, Ey, V)` tuples; the embedding is a total
function of exactly `(charges, grid_size, range_val)`, with no other
state read or written. -/
theorem calculate_deterministic_pure (charges1 charges2 : List Charge)
    (G1 G2 : ℕ) (R1 R2 : ℝ)
    (hc : charges1 = charges2) (hG : G1 = G2) (hR : R1 = R2) :
    calculate_field_and_potential charges1 G1 R1
      = calculate_field_and_potential charges2 G2 R2 := by
  rw [hc, hG, hR]

/-- C7 witness: two runs on the same concrete input coincide. -/
theorem calculate_deterministic_pure_witness :
    calculate_field_and_potential [⟨1, 0, 0⟩] 3 1
      = calculate_field_and_potential [⟨1, 0, 0⟩] 3 1 :=
  calculate_deterministic_pure [⟨1, 0, 0⟩] [⟨1, 0, 0⟩] 3 3 1 1 rfl rfl rfl

/-- Sidebar default for the `x` coordinate of charge `i` (0-based):
`-2.0 if i == 0 else (2.0 if i == 1 else 0.0)` (line 26). -/
noncomputable def default_x (i : ℕ) : ℝ :=
  if i = 0 then -2.0 else if i = 1 then 2.0 else 0.0

/-- Sidebar default for the magnitude of charge `i` (0-based):
`1.0 if i == 0 else (-1.0 if i == 1 else 1.0)` (line 27). -/
noncomputable def default_q (i : ℕ) : ℝ :=
  if i = 0 then 1.0 else if i = 1 then -1.0 else 1.0

/-- Sidebar default for the `y` coordinate of charge `i`: the literal
`0.0` passed to the `y` input for every charge (line 31). -/
noncomputable def default_y (_i : ℕ) : ℝ := 0.0

/-- C8: the collector's defaults form a dipole: charge 1 (index 0) has
`x = -2`, `q = +1`; charge 2 (index 1) has `x = 2`, `q = -1`; every
further charge (indices 2 and up, i.e. charges 3–5) has `x = 0`,
`q = +1`; and the default `y` is `0` for every charge. -/
theorem default_parameters_dipole :
    default_x 0 = -2 ∧ default_q 0 = 1 ∧
    default_x 1 = 2 ∧ default_q 1 = -1 ∧
    (∀ n : ℕ, default_x (n + 2) = 0 ∧ default_q (n + 2) = 1) ∧
    (∀ i : ℕ, default_y i = 0) := by
  refine ⟨by norm_num [default_x], by norm_num [default_q],
    by norm_num [default_x], by norm_num [default_q],
    fun n => ⟨?_, ?_⟩, fun i => by norm_num [default_y]⟩
  · rw [default_x, if_neg (by omega), if_neg (by omega)]; norm_num
  · rw [default_q, if_neg (by omega), if_neg (by omega)]; norm_num

/-- C9: at a point exactly coincident with a charge's position, that
charge's contribution to `Ex` and `Ey` is exactly zero (the direction
factor is `0 / 0.1 = 0`), and its contribution to `V` is exactly
`k*q/0.1`: the field vanishes there instead of saturating at the clamp
magnitude. -/
theorem coincident_point_contribution (c : Charge) :
    exContrib c c.x c.y = 0 ∧ eyContrib c c.x c.y = 0 ∧
    vContrib c c.x c.y = k * c.q / 0.1 := by
  refine ⟨?_, ?_, ?_⟩ <;>
    norm_num [exContrib, eyContrib, vContrib, Real.sqrt_zero]

/-! ### Explicit-store model for the frame property

The Python loop mutates only the arrays `Ex`, `Ey`, `V`; it never
assigns to `charges` or to a charge record. To state this, the store —
the charge list together with the mutable arrays — is threaded through
the loop explicitly. -/

/-- The mutable store: the charge list and the three accumulator
arrays. -/
structure Store where
  chargeList : List Charge
  fields : FieldState

/-- One loop iteration on the store: reads `charge` and updates only the
arrays; the charge list is passed through untouched, as in the source,
whose loop body assigns only to locals and to `Ex`, `Ey`, `V`. -/
noncomputable def storeBody (X Y : ℕ → ℕ → ℝ) (σ : Store) (charge : Charge) :
    Store :=
  { chargeList := σ.chargeList, fields := loopBody X Y σ.fields charge }

/-- `calculate_field_and_potential` with the store made explicit. -/
noncomputable def calculate_run (charges : List Charge) (grid_size : ℕ)
    (range_val : ℝ) : Store :=
  let X := meshX grid_size range_val
  let Y := meshY grid_size range_val
  let init : Store := ⟨charges, ⟨fun _ _ => 0, fun _ _ => 0, fun _ _ => 0⟩⟩
  charges.foldl (storeBody X Y) init

theorem foldl_storeBody (X Y : ℕ → ℕ → ℝ) (l : List Charge) (σ : Store) :
    l.foldl (storeBody X Y) σ
      = ⟨σ.chargeList, l.foldl (loopBody X Y) σ.fields⟩ := by
  induction l generalizing σ with
  | nil => rfl
  | cons c t ih => rw [List.foldl_cons, ih]; rfl

/-- C10: the function never modifies its `charges` argument — after the
run the store's charge list is exactly the input list, every record
included, and the arrays produced agree with the returned ones. -/
theorem charges_not_modified (charges : List Charge) (G : ℕ) (R : ℝ) :
    (calculate_run charges G R).chargeList = charges ∧
    (calculate_run charges G R).fields.Ex = Exout charges G R ∧
    (calculate_run charges G R).fields.Ey = Eyout charges G R ∧
    (calculate_run charges G R).fields.V = Vout charges G R := by
  have h := foldl_storeBody (meshX G R) (meshY G R) charges
    ⟨charges, ⟨fun _ _ => 0, fun _ _ => 0, fun _ _ => 0⟩⟩
  have hrun : calculate_run charges G R
      = ⟨charges, charges.foldl (loopBody (meshX G R) (meshY G R))
          ⟨fun _ _ => 0, fun _ _ => 0, fun _ _ => 0⟩⟩ := h
  rw [hrun]
  exact ⟨rfl, rfl, rfl, rfl⟩

end ElectricField
